import Mathlib

/-!
# Verification of emulisocomp (CHDManager)

A shallow embedding of `src/emulisocomp.py` — a folder-batch orchestrator that
converts disc-image game dumps to CHD via an external `chdman` process, with a
learned, persisted extension taxonomy.

Strings that the program computes on (extensions, selection expressions, user
answers) are modelled as `List Char` so that everything reduces in the kernel.
The persistent config store is modelled abstractly (per the specification's
scope) as `Option Taxonomy`: `some t` when a config document exists.  The
external converter is an opaque collaborator: its exit code and captured output
are inputs to `convert`.  Interactive prompts are modelled as scripted answer
lists.  Side effects of `convert` are recorded as an event trace.
-/

namespace Emulisocomp

/-- Python `str.lower()` restricted to the ASCII range used by the program. -/
def lowerStr (s : List Char) : List Char := s.map Char.toLower

/-- A directory entry, pathlib-style: the file name is `base` followed by the
concatenation of `suffixes`, each suffix being a trailing dot-segment such as
`".iso"` (`Path.suffixes`).  `base` itself contains no trailing dot-segment. -/
structure Item where
  base : List Char
  suffixes : List (List Char)
  isDir : Bool
deriving DecidableEq, Repr

/-- `Path.name`: the full file name. -/
def Item.name (f : Item) : List Char := f.base ++ f.suffixes.flatten

/-- `Path.suffix`: the final suffix, or empty when there is none. -/
def Item.suffix (f : Item) : List Char := f.suffixes.getLastD []

/-- `Path.with_suffix(new)`: replaces the final suffix (appends when there is
none); we only ever need the resulting file name. -/
def Item.withSuffix (f : Item) (newSuffix : List Char) : List Char :=
  f.base ++ f.suffixes.dropLast.flatten ++ newSuffix

/-- The classification categories. `unknown` is transient, never persisted. -/
inductive Category where
  | game
  | save
  | ignore
  | unknown
deriving DecidableEq, Repr

/-- The `config["categories"]` document: one extension list per persisted
category. -/
structure Taxonomy where
  game : List (List Char)
  save : List (List Char)
  ignore : List (List Char)
deriving DecidableEq, Repr

def strs (l : List String) : List (List Char) := l.map String.toList

/-- The `default_data` taxonomy from `load_config`, verbatim (duplicates
included). -/
def defaultTaxonomy : Taxonomy where
  game := strs [".iso", ".cue", ".bin", ".cdi", ".gdi", ".mdf", ".mds", ".ccd",
                ".img", ".sub", ".cdi"]
  save := strs [".state", ".state.auto", ".srm", ".bcr", ".bkr", ".smpc",
                ".vmu", ".state.auto"]
  ignore := strs [".url", ".txt", ".pdf", ".jpg", ".png", ".xml", ".db"]

/-- `load_config`: return the persisted document when the config file exists,
else the built-in defaults. -/
def load_config (store : Option Taxonomy) : Taxonomy :=
  match store with
  | some t => t
  | none => defaultTaxonomy

/-- `save_config`: `write_text` the in-memory taxonomy.  The write itself can
fail with an I/O error (`writeOk = false`); the source wraps it in no handler,
so the failure surfaces as an exception (`Except.error`). -/
def save_config (writeOk : Bool) (t : Taxonomy) :
    Except (List Char) (Option Taxonomy) :=
  if writeOk then .ok (some t) else .error "IOError".toList

/-- The extension `classify` computes for a file: the lower-cased join of all
suffixes (handles `.state.auto`), falling back to the lower-cased final suffix
when that is empty. -/
def fileExt (f : Item) : List Char :=
  let ext := lowerStr f.suffixes.flatten
  if ext = [] then lowerStr f.suffix else ext

/-- `classify`: first category (in the fixed order game, save, ignore) whose
extension list contains the file's extension, else `unknown`. -/
def classify (t : Taxonomy) (f : Item) : Category :=
  let ext := fileExt f
  if ext ∈ t.game then .game
  else if ext ∈ t.save then .save
  else if ext ∈ t.ignore then .ignore
  else .unknown

/-- The `mapping.get(choice, "ignore")` resolution of the interactive answer
(the answer is lower-cased first, as in the source). -/
def choiceCategory (choice : List Char) : Category :=
  let c := lowerStr choice
  if c = "g".toList then .game
  else if c = "s".toList then .save
  else if c = "i".toList then .ignore
  else .ignore

/-- `self.config["categories"][cat].append(ext)`.  The `unknown` case cannot
arise (resolution always yields a persisted category); it leaves the taxonomy
unchanged. -/
def Taxonomy.addExt (t : Taxonomy) (c : Category) (e : List Char) : Taxonomy :=
  match c with
  | .game => { t with game := t.game ++ [e] }
  | .save => { t with save := t.save ++ [e] }
  | .ignore => { t with ignore := t.ignore ++ [e] }
  | .unknown => t

/-- The categorised report built by `audit_folder`. -/
structure Report where
  game : List Item
  save : List Item
  ignore : List Item
  unknown : List Item
deriving DecidableEq, Repr

def emptyReport : Report := ⟨[], [], [], []⟩

/-- `report[cat].append(item)`. -/
def Report.file (r : Report) (c : Category) (f : Item) : Report :=
  match c with
  | .game => { r with game := r.game ++ [f] }
  | .save => { r with save := r.save ++ [f] }
  | .ignore => { r with ignore := r.ignore ++ [f] }
  | .unknown => { r with unknown := r.unknown ++ [f] }

/-- The mutable state threaded through an audit: the in-memory taxonomy, the
persistent store, and the scripted answers the operator gives at the
unknown-extension prompt (each `input()` consumes one; an exhausted script
behaves like an unrecognised answer, which the source maps to `ignore`). -/
structure AuditState where
  config : Taxonomy
  store : Option Taxonomy
  choices : List (List Char)
deriving DecidableEq, Repr

/-- One iteration of the `audit_folder` loop body for a single child. -/
def auditFile (writeOk : Bool) (st : AuditState) (r : Report) (item : Item) :
    Except (List Char) (AuditState × Report) :=
  if item.isDir then .ok (st, r.file .ignore item)
  else
    let cat := classify st.config item
    if cat = .unknown then
      let cat2 := choiceCategory (st.choices.headD [])
      let newCfg := st.config.addExt cat2 (lowerStr item.suffixes.flatten)
      match save_config writeOk newCfg with
      | .error e => .error e
      | .ok store2 => .ok (⟨newCfg, store2, st.choices.tail⟩, r.file cat2 item)
    else .ok (st, r.file cat item)

def auditFolderAux (writeOk : Bool) (st : AuditState) (r : Report) :
    List Item → Except (List Char) (AuditState × Report)
  | [] => .ok (st, r)
  | item :: rest =>
    match auditFile writeOk st r item with
    | .error e => .error e
    | .ok (st2, r2) => auditFolderAux writeOk st2 r2 rest

/-- `audit_folder`: classify every direct child of the folder into the report,
resolving unknowns interactively (mutating and persisting the taxonomy). -/
def audit_folder (writeOk : Bool) (st : AuditState) (items : List Item) :
    Except (List Char) (AuditState × Report) :=
  auditFolderAux writeOk st emptyReport items

/-! ## Conversion (`convert`) -/

/-- The observable side effects of `convert`, in program order. -/
inductive Event where
  | invoke (input output : List Char)
  | logAppend (logName now folder stdoutText : List Char)
  | deleteFile (fileName : List Char)
  | printNoEntry
  | printSuccess
  | printFailure (logName : List Char)
deriving DecidableEq, Repr

/-- `self.master_exts`: the entry-point extensions chdman can open. -/
def master_exts : List (List Char) :=
  strs [".cue", ".gdi", ".cdi", ".iso", ".mds", ".ccd"]

/-- `masters`: the game-bucket files whose (single, lower-cased) final suffix
is an entry-point extension, in report order. -/
def entryCandidates (r : Report) : List Item :=
  r.game.filter (fun f => lowerStr f.suffix ∈ master_exts)

/-- `log_{date}.txt`. -/
def logFileName (date : List Char) : List Char :=
  "log_".toList ++ date ++ ".txt".toList

/-- `convert(folder, report)` as an event trace.  `rc` and `stdoutText` are
the external converter's exit status and captured output; `date` and `now` the
clock readings used for the log sink name and the record timestamp. -/
def convert (date now folder : List Char) (r : Report) (rc : Int)
    (stdoutText : List Char) : List Event :=
  match entryCandidates r with
  | [] => [.printNoEntry]
  | master :: _ =>
    .invoke master.name (master.withSuffix ".chd".toList) ::
    .logAppend (logFileName date) now folder stdoutText ::
    (if rc = 0 then
      .printSuccess :: r.game.map (fun f => .deleteFile f.name)
    else
      [.printFailure (logFileName date)])

/-! ## Selection parsing (`parse_selection`) -/

/-- Python `str.split(sep)` for a one-character separator (returns `[""]` on
the empty string, keeps empty fields). -/
def splitOnChar (c : Char) : List Char → List (List Char)
  | [] => [[]]
  | a :: rest =>
    match splitOnChar c rest with
    | [] => [[]]
    | g :: gs => if a = c then [] :: g :: gs else (a :: g) :: gs

/-- `str.strip()` of surrounding whitespace, as `int()` applies it. -/
def stripChars (s : List Char) : List Char :=
  ((s.dropWhile Char.isWhitespace).reverse.dropWhile Char.isWhitespace).reverse

/-- The digit tail of an `int()` literal: decimal digits with single
underscores allowed between digits. -/
def digitsCore : List Char → Nat → Option Nat
  | [], acc => some acc
  | '_' :: c :: rest, acc =>
    if c.isDigit then digitsCore rest (acc * 10 + (c.toNat - 48)) else none
  | c :: rest, acc =>
    if c.isDigit then digitsCore rest (acc * 10 + (c.toNat - 48)) else none

/-- Python `int()` on the tokens this program feeds it (they can never
contain `-`, which is routed to the range branch): surrounding whitespace is
stripped, one leading `+` is allowed, then a non-empty digit string with
single underscores between digits; anything else raises `ValueError`
(modelled as `none`). -/
def parseDigits? (s : List Char) : Option Nat :=
  let t := stripChars s
  let t2 := match t with
    | '+' :: rest => rest
    | _ => t
  match t2 with
  | [] => none
  | c :: rest => if c.isDigit then digitsCore rest (c.toNat - 48) else none

/-- One iteration of the `parse_selection` loop: the indices one token
contributes (`indices.extend(range(start, end + 1))` or
`indices.append(int(part))`), or the `ValueError` that `int`/tuple unpacking
raises on a malformed token. -/
def partIndices (p : List Char) : Except (List Char) (List Nat) :=
  if '-' ∈ p then
    match splitOnChar '-' p with
    | [a, b] =>
      match parseDigits? a, parseDigits? b with
      | some s, some e => .ok (List.range' s (e + 1 - s))
      | _, _ => .error "ValueError: invalid literal for int".toList
    | _ => .error "ValueError: unpack".toList
  else
    match parseDigits? p with
    | some n => .ok [n]
    | none => .error "ValueError: invalid literal for int".toList

/-- The loop of `parse_selection`: accumulate indices token by token; a
`ValueError` on any token aborts the whole parse. -/
def parseParts : List (List Char) → Except (List Char) (List Nat)
  | [] => .ok []
  | p :: rest =>
    match partIndices p with
    | .error e => .error e
    | .ok here =>
      match parseParts rest with
      | .error e => .error e
      | .ok idxs => .ok (here ++ idxs)

/-- `parse_selection(selection, folders)`: `'all'` (case-insensitive) selects
every folder; otherwise each comma-separated token contributes its indices and
`[folders[i] for i in indices if i < len(folders)]` is returned. -/
def parse_selection (sel : List Char) (folders : List α) :
    Except (List Char) (List α) :=
  if lowerStr sel = "all".toList then .ok folders
  else
    match parseParts (splitOnChar ',' sel) with
    | .error e => .error e
    | .ok idxs => .ok (idxs.filterMap (fun i => folders.get? i))

/-- A well-formed selection token, as the specification's grammar reads it:
either a single non-negative index or an inclusive `start-end` range. -/
inductive SelToken where
  | single (n : Nat)
  | range (s e : Nat)
deriving DecidableEq, Repr

/-- Reading of one comma-separated token; `none` marks a malformed token. -/
def readToken (p : List Char) : Option SelToken :=
  if '-' ∈ p then
    match splitOnChar '-' p with
    | [a, b] =>
      match parseDigits? a, parseDigits? b with
      | some s, some e => some (.range s e)
      | _, _ => none
    | _ => none
  else (parseDigits? p).map .single

/-- The indices a token resolves to: a single index, or `start..end`
inclusive. -/
def tokenIndices : SelToken → List Nat
  | .single n => [n]
  | .range s e => List.range' s (e + 1 - s)

/-- Modelled from the spec's grammar (for the refinement statement of the
selection parser): the folders at each resolved index in token order, with
out-of-bounds indices silently dropped and duplicates retained. -/
def selectionSpec (tokens : List SelToken) (folders : List α) : List α :=
  (tokens.flatMap tokenIndices).filterMap (fun i => folders.get? i)

/-! ## The per-folder run loop (`run`) -/

/-- The inputs consumed while processing one selected folder: its directory
entry, its children, the confirmation answer, and the converter's behaviour. -/
structure FolderRun where
  folder : Item
  items : List Item
  confirm : List Char
  rc : Int
  stdoutText : List Char
deriving DecidableEq, Repr

/-- One iteration of the `run` loop: audit, then convert when the operator
answers exactly `y` (lower-cased). -/
def processFolder (writeOk : Bool) (date now : List Char) (st : AuditState)
    (fr : FolderRun) : Except (List Char) (AuditState × List Event) :=
  match audit_folder writeOk st fr.items with
  | .error e => .error e
  | .ok (st2, report) =>
    if lowerStr fr.confirm = "y".toList then
      .ok (st2, convert date now fr.folder.name report fr.rc fr.stdoutText)
    else
      .ok (st2, [])

/-- The `run` loop over the selected folders, threading the taxonomy state and
concatenating the event traces. -/
def runBatch (writeOk : Bool) (date now : List Char) (st : AuditState) :
    List FolderRun → Except (List Char) (AuditState × List Event)
  | [] => .ok (st, [])
  | fr :: rest =>
    match processFolder writeOk date now st fr with
    | .error e => .error e
    | .ok (st2, evs) =>
      match runBatch writeOk date now st2 rest with
      | .error e => .error e
      | .ok (st3, evs2) => .ok (st3, evs ++ evs2)

/-! ## Helper lemmas -/

def Event.isLogAppend : Event → Bool
  | .logAppend _ _ _ _ => true
  | _ => false

def Event.isInvoke : Event → Bool
  | .invoke _ _ => true
  | _ => false

theorem convert_eq_of_no_candidates (date now folder : List Char) (r : Report)
    (rc : Int) (out : List Char) (h : entryCandidates r = []) :
    convert date now folder r rc out = [.printNoEntry] := by
  unfold convert
  rw [h]

theorem convert_eq_of_candidates (date now folder : List Char) (r : Report)
    (rc : Int) (out : List Char) (master : Item) (rest : List Item)
    (h : entryCandidates r = master :: rest) :
    convert date now folder r rc out =
      .invoke master.name (master.withSuffix ".chd".toList) ::
      .logAppend (logFileName date) now folder out ::
      (if rc = 0 then
        .printSuccess :: r.game.map (fun f => .deleteFile f.name)
      else
        [.printFailure (logFileName date)]) := by
  unfold convert
  rw [h]

/-! ## Claim theorems -/

/-- C1: For every confirmed folder conversion (one where an entry candidate
exists, so the converter actually runs), the side effects are strictly
ordered: the trace starts with the converter invocation, immediately followed
by exactly one timestamped log record (folder name, captured output) appended
to the day's log sink regardless of exit status; every deletion event lies
after the log append, and deletions occur only when the exit status is 0. -/
theorem convert_side_effects_ordered (date now folder : List Char) (r : Report)
    (rc : Int) (out : List Char) (h : entryCandidates r ≠ []) :
    ∃ master tail,
      (entryCandidates r).head? = some master ∧
      convert date now folder r rc out =
        Event.invoke master.name (master.withSuffix ".chd".toList) ::
        Event.logAppend (logFileName date) now folder out :: tail ∧
      (convert date now folder r rc out).countP Event.isLogAppend = 1 ∧
      (∀ n, Event.deleteFile n ∈ convert date now folder r rc out →
        Event.deleteFile n ∈ tail ∧ rc = 0) := by
  rcases hc : entryCandidates r with _ | ⟨master, rest⟩
  · exact absurd hc h
  refine ⟨master, _, by simp [hc],
    convert_eq_of_candidates date now folder r rc out master rest hc, ?_, ?_⟩
  · rw [convert_eq_of_candidates date now folder r rc out master rest hc]
    by_cases hrc : rc = 0 <;>
      simp [hrc, List.countP_cons, List.countP_map, Event.isLogAppend,
        Function.comp_def]
  · intro n hn
    rw [convert_eq_of_candidates date now folder r rc out master rest hc] at hn
    by_cases hrc : rc = 0 <;> simp [hrc] at hn ⊢
    tauto

theorem lowerStr_eq_nil_iff (s : List Char) : lowerStr s = [] ↔ s = [] := by
  simp [lowerStr]

/-- When the compound suffix is empty so is the single final suffix, hence
`fileExt` always equals the lower-cased compound suffix — exactly the string
the resolution step appends to the taxonomy. -/
theorem fileExt_eq_compound (f : Item) :
    fileExt f = lowerStr f.suffixes.flatten := by
  unfold fileExt
  dsimp only
  split
  · rename_i hnil
    have hflat : f.suffixes.flatten = [] := (lowerStr_eq_nil_iff _).mp hnil
    have hsuf : f.suffix = [] := by
      unfold Item.suffix
      rcases hs : f.suffixes.getLast? with _ | last
      · simp [List.getLastD_eq_getLast?, hs]
      · have hmem : last ∈ f.suffixes := List.mem_of_getLast?_eq_some hs
        have hlast : last = [] := List.flatten_eq_nil_iff.mp hflat last hmem
        simp [List.getLastD_eq_getLast?, hs, hlast]
    rw [hsuf, hflat]
  · rfl

theorem classify_eq_unknown_iff (t : Taxonomy) (f : Item) :
    classify t f = .unknown ↔
      fileExt f ∉ t.game ∧ fileExt f ∉ t.save ∧ fileExt f ∉ t.ignore := by
  unfold classify
  dsimp only
  split_ifs <;> simp_all

theorem choiceCategory_ne_unknown (c : List Char) :
    choiceCategory c ≠ .unknown := by
  unfold choiceCategory
  dsimp only
  split_ifs <;> simp

/-- Classification after learning: appending a fresh extension to a persisted
category makes every file carrying that extension classify to it. -/
theorem classify_addExt (t : Taxonomy) (e : List Char) (c : Category) (f : Item)
    (hc : c ≠ .unknown) (he : fileExt f = e)
    (hg : e ∉ t.game) (hs : e ∉ t.save) (hi : e ∉ t.ignore) :
    classify (t.addExt c e) f = c := by
  cases c <;> simp_all [classify, Taxonomy.addExt]

/-- C2: When the converter exits with a non-zero status, no source file is
deleted, a log record with the captured failure output is still appended to
the day's sink, and the failure is reported to the operator with a pointer to
the very log sink that holds the record. -/
theorem convert_failure_keeps_sources (date now folder : List Char)
    (r : Report) (rc : Int) (out : List Char)
    (hrc : rc ≠ 0) (h : entryCandidates r ≠ []) :
    (∀ n, Event.deleteFile n ∉ convert date now folder r rc out) ∧
    Event.logAppend (logFileName date) now folder out ∈
      convert date now folder r rc out ∧
    Event.printFailure (logFileName date) ∈ convert date now folder r rc out := by
  rcases hc : entryCandidates r with _ | ⟨master, rest⟩
  · exact absurd hc h
  rw [convert_eq_of_candidates date now folder r rc out master rest hc]
  simp [hrc]

/-- C3: When the game bucket holds at least one entry-point candidate, the
converter is invoked exactly once, on the first candidate in audit order, with
the same-named output path carrying the `.chd` archival extension; and on exit
status 0 every file of the game bucket (entry file, other candidates and
companion files alike) is deleted. -/
theorem convert_invokes_first_candidate (date now folder : List Char)
    (r : Report) (rc : Int) (out : List Char) (h : entryCandidates r ≠ []) :
    ∃ master rest, entryCandidates r = master :: rest ∧
      (convert date now folder r rc out).countP Event.isInvoke = 1 ∧
      Event.invoke master.name (master.withSuffix ".chd".toList) ∈
        convert date now folder r rc out ∧
      master.withSuffix ".chd".toList =
        master.base ++ master.suffixes.dropLast.flatten ++ ".chd".toList ∧
      (rc = 0 → ∀ f ∈ r.game,
        Event.deleteFile f.name ∈ convert date now folder r rc out) := by
  rcases hc : entryCandidates r with _ | ⟨master, rest⟩
  · exact absurd hc h
  refine ⟨master, rest, rfl, ?_, ?_, rfl, ?_⟩
  · rw [convert_eq_of_candidates date now folder r rc out master rest hc]
    by_cases hrc : rc = 0 <;>
      simp [hrc, List.countP_cons, List.countP_map, Event.isInvoke,
        Function.comp_def]
  · rw [convert_eq_of_candidates date now folder r rc out master rest hc]
    simp
  · intro hrc f hf
    rw [convert_eq_of_candidates date now folder r rc out master rest hc]
    simp [hrc]
    exact ⟨f, hf, rfl⟩

/-- C6: For a confirmed folder whose game bucket has no entry-point
candidate, `convert` only reports the "no entry point" condition: the
converter is never invoked and nothing is deleted, and the batch loop carries
on with the remaining selected folders. -/
theorem no_entry_point_aborts_folder_only (date now : List Char)
    (st st2 st3 : AuditState) (fr : FolderRun) (rest : List FolderRun)
    (report : Report) (evs : List Event)
    (haudit : audit_folder true st fr.items = .ok (st2, report))
    (hconfirm : lowerStr fr.confirm = "y".toList)
    (hnone : entryCandidates report = [])
    (hrest : runBatch true date now st2 rest = .ok (st3, evs)) :
    convert date now fr.folder.name report fr.rc fr.stdoutText =
      [.printNoEntry] ∧
    (∀ i o, Event.invoke i o ∉
      convert date now fr.folder.name report fr.rc fr.stdoutText) ∧
    (∀ n, Event.deleteFile n ∉
      convert date now fr.folder.name report fr.rc fr.stdoutText) ∧
    runBatch true date now st (fr :: rest) =
      .ok (st3, Event.printNoEntry :: evs) := by
  have hcv := convert_eq_of_no_candidates date now fr.folder.name report fr.rc
    fr.stdoutText hnone
  refine ⟨hcv, ?_, ?_, ?_⟩
  · intro i o
    rw [hcv]
    simp
  · intro n
    rw [hcv]
    simp
  · have hpf : processFolder true date now st fr =
        .ok (st2, [Event.printNoEntry]) := by
      unfold processFolder
      rw [haudit]
      simp [hconfirm, hcv]
    simp only [runBatch, hpf, hrest]
    rfl

/-- C4: for every file entry, `classify` works on the lower-cased compound
suffix (falling back to the single final suffix when it is empty), checks the
taxonomy in the fixed priority order game, save, ignore, returns the first
match and `unknown` when no category contains the extension; and for a file
whose extension is already in the taxonomy the audit step files it
deterministically without touching the state — no interactive resolution, no
side effect. -/
theorem classify_taxonomy_hit_no_resolution (st : AuditState) (r : Report)
    (f : Item) :
    fileExt f = (if lowerStr f.suffixes.flatten = [] then lowerStr f.suffix
                 else lowerStr f.suffixes.flatten) ∧
    (fileExt f ∈ st.config.game → classify st.config f = .game) ∧
    (fileExt f ∉ st.config.game → fileExt f ∈ st.config.save →
      classify st.config f = .save) ∧
    (fileExt f ∉ st.config.game → fileExt f ∉ st.config.save →
      fileExt f ∈ st.config.ignore → classify st.config f = .ignore) ∧
    (fileExt f ∉ st.config.game → fileExt f ∉ st.config.save →
      fileExt f ∉ st.config.ignore → classify st.config f = .unknown) ∧
    (f.isDir = false →
      (fileExt f ∈ st.config.game ∨ fileExt f ∈ st.config.save ∨
        fileExt f ∈ st.config.ignore) →
      classify st.config f ≠ .unknown ∧
      auditFile true st r f = .ok (st, r.file (classify st.config f) f)) := by
  refine ⟨rfl, ?_, ?_, ?_, ?_, ?_⟩
  · intro hg
    simp [classify, hg]
  · intro hg hs
    simp [classify, hg, hs]
  · intro hg hs hi
    simp [classify, hg, hs, hi]
  · intro hg hs hi
    simp [classify, hg, hs, hi]
  · intro hf hin
    have hne : classify st.config f ≠ .unknown := by
      intro hu
      rcases (classify_eq_unknown_iff st.config f).mp hu with ⟨hg, hs, hi⟩
      tauto
    refine ⟨hne, ?_⟩
    unfold auditFile
    rw [hf]
    simp [hne]

/-- C5: Resolving an unknown file appends its lower-cased compound suffix to
the chosen category and persists the taxonomy before control returns; from
then on any file with the identical extension classifies to the chosen
category without prompting — both against the in-memory taxonomy and against
the taxonomy reloaded from the store after a restart. -/
theorem learned_extension_round_trip (st : AuditState) (r r2 : Report)
    (item item2 : Item)
    (hdir : item.isDir = false) (hdir2 : item2.isDir = false)
    (hunk : classify st.config item = .unknown)
    (hsame : fileExt item2 = fileExt item) :
    ∃ st2,
      auditFile true st r item =
        .ok (st2, r.file (choiceCategory (st.choices.headD [])) item) ∧
      st2.config = st.config.addExt (choiceCategory (st.choices.headD []))
        (lowerStr item.suffixes.flatten) ∧
      st2.store = some st2.config ∧
      choiceCategory (st.choices.headD []) ≠ .unknown ∧
      classify st2.config item2 = choiceCategory (st.choices.headD []) ∧
      classify (load_config st2.store) item2 =
        choiceCategory (st.choices.headD []) ∧
      auditFile true st2 r2 item2 =
        .ok (st2, r2.file (choiceCategory (st.choices.headD [])) item2) := by
  rcases (classify_eq_unknown_iff st.config item).mp hunk with ⟨hg, hs, hi⟩
  have hext : lowerStr item.suffixes.flatten = fileExt item :=
    (fileExt_eq_compound item).symm
  set chosen := choiceCategory (st.choices.headD []) with hchosen
  have hchne : chosen ≠ .unknown := choiceCategory_ne_unknown _
  have hcl2 : classify (st.config.addExt chosen (lowerStr item.suffixes.flatten))
      item2 = chosen := by
    rw [hext]
    exact classify_addExt st.config (fileExt item) chosen item2 hchne hsame
      hg hs hi
  refine ⟨⟨st.config.addExt chosen (lowerStr item.suffixes.flatten),
    some (st.config.addExt chosen (lowerStr item.suffixes.flatten)),
    st.choices.tail⟩, ?_, rfl, rfl, hchne, hcl2, hcl2, ?_⟩
  · unfold auditFile
    rw [hdir]
    simp [hunk, save_config, hchosen, List.headD_eq_head?_getD]
  · unfold auditFile
    rw [hdir2]
    simp [hcl2, hchne]

/-- All four buckets of a report, concatenated. -/
def Report.flat (r : Report) : List Item :=
  r.game ++ r.save ++ r.ignore ++ r.unknown

theorem flat_file (r : Report) (c : Category) (f : Item) :
    ((r.file c f).flat).Perm (f :: r.flat) := by
  rw [List.perm_iff_count]
  intro a
  cases c <;>
    simp [Report.file, Report.flat, List.count_append, List.count_cons] <;>
    omega

theorem unknown_file (r : Report) (c : Category) (f : Item)
    (hc : c ≠ .unknown) : (r.file c f).unknown = r.unknown := by
  cases c <;> simp_all [Report.file]

theorem ignore_file_subset (r : Report) (c : Category) (f : Item) :
    r.ignore ⊆ (r.file c f).ignore := by
  cases c <;> simp [Report.file, List.subset_append_left]

theorem game_file_subset (r : Report) (c : Category) (f : Item) :
    r.game ⊆ (r.file c f).game := by
  cases c <;> simp [Report.file, List.subset_append_left]

/-- With a writable store, the audit loop body never fails: it files the item
under a concrete (never `unknown`) category, and a directory goes to `ignore`
with the state untouched. -/
theorem auditFile_ok (st : AuditState) (r : Report) (item : Item) :
    ∃ st2 c, auditFile true st r item = .ok (st2, r.file c item) ∧
      c ≠ .unknown ∧ (item.isDir = true → c = .ignore ∧ st2 = st) := by
  unfold auditFile
  by_cases hd : item.isDir
  · exact ⟨st, .ignore, by simp [hd], by simp, fun _ => ⟨rfl, rfl⟩⟩
  · rw [if_neg hd]
    dsimp only
    by_cases hu : classify st.config item = .unknown
    · refine ⟨⟨st.config.addExt (choiceCategory (st.choices.headD []))
          (lowerStr item.suffixes.flatten),
        some (st.config.addExt (choiceCategory (st.choices.headD []))
          (lowerStr item.suffixes.flatten)),
        st.choices.tail⟩, choiceCategory (st.choices.headD []), ?_,
        choiceCategory_ne_unknown _, fun h => absurd h hd⟩
      simp [hu, save_config, List.headD_eq_head?_getD]
    · exact ⟨st, classify st.config item, by simp [hu], hu,
        fun h => absurd h hd⟩

theorem auditFolderAux_spec (items : List Item) :
    ∀ (st : AuditState) (r : Report),
      ∃ st2 r2, auditFolderAux true st r items = .ok (st2, r2) ∧
        r2.unknown = r.unknown ∧
        r2.flat.Perm (items ++ r.flat) ∧
        (∀ f ∈ items, f.isDir = true → f ∈ r2.ignore) ∧
        (∀ f ∈ r.ignore, f ∈ r2.ignore) := by
  induction items with
  | nil =>
    intro st r
    exact ⟨st, r, rfl, rfl, by simp, by simp, fun f hf => hf⟩
  | cons item rest ih =>
    intro st r
    rcases auditFile_ok st r item with ⟨st1, c, hstep, hcne, hdir⟩
    rcases ih st1 (r.file c item) with ⟨st2, r2, haux, hunk, hperm, hdirs, hmono⟩
    refine ⟨st2, r2, ?_, ?_, ?_, ?_, ?_⟩
    · unfold auditFolderAux
      rw [hstep]
      exact haux
    · rw [hunk, unknown_file r c item hcne]
    · refine hperm.trans ?_
      have h2 : (rest ++ (r.file c item).flat).Perm
          (rest ++ (item :: r.flat)) := (flat_file r c item).append_left rest
      refine h2.trans ?_
      have h3 : rest ++ (item :: r.flat) = (rest ++ [item]) ++ r.flat := by
        simp
      rw [h3]
      have h4 : ((rest ++ [item]) ++ r.flat).Perm ((item :: rest) ++ r.flat) :=
        (List.perm_append_singleton item rest).append_right r.flat
      simp only [List.cons_append] at h4
      exact h4
    · intro f hf hfd
      rcases List.mem_cons.mp hf with heq | hf2
      · have hc : c = .ignore := (hdir (heq ▸ hfd)).1
        refine hmono f ?_
        rw [heq, hc]
        simp [Report.file]
      · exact hdirs f hf2 hfd
    · intro f hf
      exact hmono f (ignore_file_subset r c item hf)

/-- C10: With a writable store, `audit_folder` always returns a report whose
buckets partition the folder's direct children (each child lands in exactly
one bucket, as a multiset identity), every directory child lands in the
`ignore` bucket, and the `unknown` bucket is always empty on return because
every `unknown` file is resolved to a concrete category before being filed. -/
theorem audit_folder_partitions (st : AuditState) (items : List Item) :
    ∃ st2 rep, audit_folder true st items = .ok (st2, rep) ∧
      rep.unknown = [] ∧
      (rep.game ++ rep.save ++ rep.ignore ++ rep.unknown).Perm items ∧
      (∀ f ∈ items, f.isDir = true → f ∈ rep.ignore) := by
  rcases auditFolderAux_spec items st emptyReport with
    ⟨st2, rep, haux, hunk, hperm, hdirs, _⟩
  refine ⟨st2, rep, haux, ?_, ?_, hdirs⟩
  · rw [hunk]
    rfl
  · have : rep.flat.Perm items := by
      have : (items ++ emptyReport.flat) = items := by
        simp [emptyReport, Report.flat]
      rw [this] at hperm
      exact hperm
    exact this

theorem auditFolderAux_save_failure (items : List Item) :
    ∀ (st : AuditState) (r : Report),
      (∃ item ∈ items, item.isDir = false ∧
        classify st.config item = .unknown) →
      auditFolderAux false st r items = .error "IOError".toList := by
  induction items with
  | nil =>
    intro st r h
    rcases h with ⟨i, hi, _⟩
    cases hi
  | cons item rest ih =>
    intro st r h
    by_cases hd : item.isDir = true
    · have hstep : auditFile false st r item = .ok (st, r.file .ignore item) := by
        unfold auditFile
        simp [hd]
      unfold auditFolderAux
      rw [hstep]
      apply ih
      rcases h with ⟨i, hi, hnd, hcl⟩
      rcases List.mem_cons.mp hi with heq | hm
      · exfalso
        rw [heq] at hnd
        rw [hd] at hnd
        exact absurd hnd (by simp)
      · exact ⟨i, hm, hnd, hcl⟩
    · by_cases hu : classify st.config item = .unknown
      · have hstep : auditFile false st r item = .error "IOError".toList := by
          unfold auditFile
          simp [hd, hu, save_config]
        unfold auditFolderAux
        rw [hstep]
      · have hstep : auditFile false st r item =
            .ok (st, r.file (classify st.config item) item) := by
          unfold auditFile
          simp [hd, hu]
        unfold auditFolderAux
        rw [hstep]
        apply ih
        rcases h with ⟨i, hi, hnd, hcl⟩
        rcases List.mem_cons.mp hi with heq | hm
        · exfalso
          rw [heq] at hcl
          exact hu hcl
        · exact ⟨i, hm, hnd, hcl⟩

/-- C9 (amended): if persisting the taxonomy fails while an unknown file is
being resolved, the error propagates uncaught out of `save_config` and
`audit_folder` — the in-progress audit (hence the conversion run driving it)
is aborted by the exception instead of carrying on. -/
theorem save_failure_crashes_audit (st : AuditState) (items : List Item)
    (h : ∃ item ∈ items, item.isDir = false ∧
      classify st.config item = .unknown) :
    audit_folder false st items = .error "IOError".toList :=
  auditFolderAux_save_failure items st emptyReport h

/-- C9 counterexample: a concrete run in which the taxonomy save fails while
resolving the unknown extension `.weird`.  The whole batch run terminates
with the propagated `IOError` instead of reporting the failure and
continuing, refuting the claim that a save failure cannot crash an
in-progress conversion. -/
theorem save_failure_counterexample :
    runBatch false "2024-01-01".toList "now".toList
      ⟨defaultTaxonomy, none, ["g".toList]⟩
      [⟨⟨"Folder".toList, [], true⟩,
        [⟨"foo".toList, [".weird".toList], false⟩],
        "y".toList, 0, "out".toList⟩] = .error "IOError".toList := by
  rfl

/-- C9 witness: the amended theorem applied to a concrete failing save. -/
theorem save_failure_crashes_audit_witness :
    audit_folder false ⟨defaultTaxonomy, none, ["g".toList]⟩
      [⟨"foo".toList, [".weird".toList], false⟩] = .error "IOError".toList :=
  save_failure_crashes_audit ⟨defaultTaxonomy, none, ["g".toList]⟩
    [⟨"foo".toList, [".weird".toList], false⟩]
    ⟨⟨"foo".toList, [".weird".toList], false⟩, by decide, rfl, by decide⟩

theorem partIndices_eq_of_readToken (p : List Char) (t : SelToken)
    (h : readToken p = some t) :
    partIndices p = .ok (tokenIndices t) := by
  unfold readToken at h
  unfold partIndices
  split_ifs at h ⊢ with hdash
  · rcases hsp : splitOnChar '-' p with _ | ⟨a, tl⟩
    · simp [hsp] at h
    rcases tl with _ | ⟨b, tl2⟩
    · simp [hsp] at h
    rcases tl2 with _ | ⟨c, tl3⟩
    · rcases hda : parseDigits? a with _ | sv
      · simp [hsp, hda] at h
      rcases hdb : parseDigits? b with _ | ev
      · simp [hsp, hda, hdb] at h
      · simp only [hsp, hda, hdb] at h
        simp only [Option.some.injEq] at h
        simp [hsp, hda, hdb, ← h, tokenIndices]
    · simp [hsp] at h
  · rcases hda : parseDigits? p with _ | n
    · simp [hda] at h
    · rw [hda] at h
      have h2 : some (SelToken.single n) = some t := h
      injection h2 with h3
      simp [hda, ← h3, tokenIndices]

theorem partIndices_error_of_none (p : List Char) (h : readToken p = none) :
    ∃ e, partIndices p = .error e := by
  unfold readToken at h
  unfold partIndices
  split_ifs at h ⊢ with hdash
  · rcases hsp : splitOnChar '-' p with _ | ⟨a, tl⟩
    · exact ⟨"ValueError: unpack".toList, by simp [hsp]⟩
    rcases tl with _ | ⟨b, tl2⟩
    · exact ⟨"ValueError: unpack".toList, by simp [hsp]⟩
    rcases tl2 with _ | ⟨c, tl3⟩
    · rcases hda : parseDigits? a with _ | sv
      · exact ⟨"ValueError: invalid literal for int".toList,
          by simp [hsp, hda]⟩
      rcases hdb : parseDigits? b with _ | ev
      · exact ⟨"ValueError: invalid literal for int".toList,
          by simp [hsp, hda, hdb]⟩
      · simp [hsp, hda, hdb] at h
    · exact ⟨"ValueError: unpack".toList, by simp [hsp]⟩
  · rcases hda : parseDigits? p with _ | n
    · exact ⟨"ValueError: invalid literal for int".toList, by simp [hda]⟩
    · simp [hda] at h

theorem parseParts_eq_of_readToken (parts : List (List Char)) :
    ∀ tokens, parts.mapM readToken = some tokens →
      parseParts parts = .ok (tokens.flatMap tokenIndices) := by
  induction parts with
  | nil =>
    intro tokens h
    simp only [List.mapM_nil, pure, Option.some.injEq] at h
    subst h
    rfl
  | cons p rest ih =>
    intro tokens h
    rw [List.mapM_cons] at h
    rcases hp : readToken p with _ | t <;> rw [hp] at h
    · simp at h
    rcases hr : List.mapM readToken rest with _ | ts <;> rw [hr] at h
    · simp at h
    simp only [Option.pure_def, Option.bind_some, Option.bind_eq_some,
      Option.some.injEq] at h
    have htt : tokens = t :: ts := by
      simpa using h.symm
    subst htt
    unfold parseParts
    rw [partIndices_eq_of_readToken p t hp, ih ts hr]
    simp

theorem parseParts_error_of_bad_part (parts : List (List Char)) :
    ∀ p ∈ parts, readToken p = none →
      ∃ e, parseParts parts = .error e := by
  induction parts with
  | nil =>
    intro p hp
    cases hp
  | cons q rest ih =>
    intro p hp hbad
    rcases List.mem_cons.mp hp with heq | hm
    · rcases partIndices_error_of_none q (heq ▸ hbad) with ⟨e, he⟩
      refine ⟨e, ?_⟩
      unfold parseParts
      rw [he]
    · rcases hq : partIndices q with e | here
      · refine ⟨e, ?_⟩
        unfold parseParts
        rw [hq]
      · rcases ih p hm hbad with ⟨e, he⟩
        refine ⟨e, ?_⟩
        unfold parseParts
        rw [hq, he]

/-- C7: `parse_selection` on the (case-insensitive) literal `all` returns the
ordered folder list unchanged; on any well-formed comma-separated expression
of indices and inclusive `start-end` ranges it returns the folders at each
resolved index in token order, dropping out-of-bounds indices silently and
keeping duplicates — exactly the specification-side `selectionSpec`. -/
theorem parse_selection_correct (sel : List Char) (folders : List α) :
    (lowerStr sel = "all".toList → parse_selection sel folders = .ok folders) ∧
    (lowerStr sel ≠ "all".toList →
      ∀ tokens, (splitOnChar ',' sel).mapM readToken = some tokens →
        parse_selection sel folders = .ok (selectionSpec tokens folders)) := by
  constructor
  · intro hall
    unfold parse_selection
    rw [if_pos hall]
  · intro hall tokens htok
    unfold parse_selection
    rw [if_neg hall, parseParts_eq_of_readToken (splitOnChar ',' sel) tokens htok]
    rfl

/-- C8: an expression that is not the literal `all` and contains at least one
malformed token (non-integer, or a malformed range such as `x-2`) makes
`parse_selection` fail as a whole: a fatal parse error, no folders selected,
no partial recovery. -/
theorem parse_selection_malformed_fatal (sel : List Char) (folders : List α)
    (hall : lowerStr sel ≠ "all".toList)
    (hbad : ∃ p ∈ splitOnChar ',' sel, readToken p = none) :
    ∃ e, parse_selection sel folders = .error e := by
  rcases hbad with ⟨p, hp, hbadp⟩
  rcases parseParts_error_of_bad_part (splitOnChar ',' sel) p hp hbadp with
    ⟨e, he⟩
  refine ⟨e, ?_⟩
  unfold parse_selection
  rw [if_neg hall, he]

/-! ## Witnesses: the claim theorems applied at concrete inputs -/

/-- C1 witness: a folder with a single `.iso` game file and a succeeding
converter. -/
theorem convert_side_effects_ordered_witness :
    entryCandidates ⟨[⟨"game".toList, [".iso".toList], false⟩], [], [], []⟩
      ≠ [] ∧
    (convert "d".toList "n".toList "F".toList
      ⟨[⟨"game".toList, [".iso".toList], false⟩], [], [], []⟩ 0
      "out".toList).countP Event.isLogAppend = 1 := by
  have h : entryCandidates
      ⟨[⟨"game".toList, [".iso".toList], false⟩], [], [], []⟩ ≠ [] := by
    decide
  rcases convert_side_effects_ordered "d".toList "n".toList "F".toList
    ⟨[⟨"game".toList, [".iso".toList], false⟩], [], [], []⟩ 0 "out".toList h
    with ⟨m, tl, _, _, hcount, _⟩
  exact ⟨h, hcount⟩

/-- C2 witness: the same folder with the converter exiting 1. -/
theorem convert_failure_keeps_sources_witness :
    (∀ n, Event.deleteFile n ∉ convert "d".toList "n".toList "F".toList
      ⟨[⟨"game".toList, [".iso".toList], false⟩], [], [], []⟩ 1
      "err".toList) ∧
    Event.printFailure (logFileName "d".toList) ∈
      convert "d".toList "n".toList "F".toList
        ⟨[⟨"game".toList, [".iso".toList], false⟩], [], [], []⟩ 1
        "err".toList := by
  have h := convert_failure_keeps_sources "d".toList "n".toList "F".toList
    ⟨[⟨"game".toList, [".iso".toList], false⟩], [], [], []⟩ 1 "err".toList
    (by decide) (by decide)
  exact ⟨h.1, h.2.2⟩

/-- C3 witness: one entry candidate plus a companion `.bin` track file; on
success both game-bucket files are deleted. -/
theorem convert_invokes_first_candidate_witness :
    (convert "d".toList "n".toList "F".toList
      ⟨[⟨"t".toList, [".bin".toList], false⟩,
        ⟨"g".toList, [".cue".toList], false⟩], [], [], []⟩ 0
      "out".toList).countP Event.isInvoke = 1 ∧
    Event.deleteFile (Item.name ⟨"t".toList, [".bin".toList], false⟩) ∈
      convert "d".toList "n".toList "F".toList
        ⟨[⟨"t".toList, [".bin".toList], false⟩,
          ⟨"g".toList, [".cue".toList], false⟩], [], [], []⟩ 0
        "out".toList := by
  rcases convert_invokes_first_candidate "d".toList "n".toList "F".toList
    ⟨[⟨"t".toList, [".bin".toList], false⟩,
      ⟨"g".toList, [".cue".toList], false⟩], [], [], []⟩ 0 "out".toList
    (by decide) with ⟨m, rest, _, hcount, _, _, hdel⟩
  exact ⟨hcount, hdel rfl ⟨"t".toList, [".bin".toList], false⟩ (by decide)⟩

/-- C4 witness: a `.iso` file against the default taxonomy is classified
`game` and audited without interaction, while a `.weird` file falls through
to `unknown`. -/
theorem classify_taxonomy_hit_no_resolution_witness :
    classify defaultTaxonomy ⟨"g".toList, [".iso".toList], false⟩ =
      Category.game ∧
    classify defaultTaxonomy ⟨"x".toList, [".weird".toList], false⟩ =
      Category.unknown ∧
    auditFile true ⟨defaultTaxonomy, none, []⟩ emptyReport
        ⟨"g".toList, [".iso".toList], false⟩ =
      .ok (⟨defaultTaxonomy, none, []⟩,
        emptyReport.file
          (classify defaultTaxonomy ⟨"g".toList, [".iso".toList], false⟩)
          ⟨"g".toList, [".iso".toList], false⟩) := by
  rcases classify_taxonomy_hit_no_resolution ⟨defaultTaxonomy, none, []⟩
    emptyReport ⟨"g".toList, [".iso".toList], false⟩
    with ⟨_, hg, _, _, _, haud⟩
  rcases classify_taxonomy_hit_no_resolution ⟨defaultTaxonomy, none, []⟩
    emptyReport ⟨"x".toList, [".weird".toList], false⟩
    with ⟨_, _, _, _, hu, _⟩
  exact ⟨hg (by decide), hu (by decide) (by decide) (by decide),
    (haud rfl (Or.inl (by decide))).2⟩

/-- C5 witness: learning `.weird` as `game` from the scripted answer `g`;
another `.weird` file then classifies as `game`. -/
theorem learned_extension_round_trip_witness :
    ∃ st2,
      auditFile true ⟨defaultTaxonomy, none, ["g".toList]⟩ emptyReport
          ⟨"foo".toList, [".weird".toList], false⟩ =
        .ok (st2, emptyReport.file
          (choiceCategory (["g".toList].headD []))
          ⟨"foo".toList, [".weird".toList], false⟩) ∧
      classify st2.config ⟨"bar".toList, [".weird".toList], false⟩ =
        choiceCategory (["g".toList].headD []) ∧
      classify (load_config st2.store)
          ⟨"bar".toList, [".weird".toList], false⟩ =
        choiceCategory (["g".toList].headD []) := by
  rcases learned_extension_round_trip ⟨defaultTaxonomy, none, ["g".toList]⟩
    emptyReport emptyReport ⟨"foo".toList, [".weird".toList], false⟩
    ⟨"bar".toList, [".weird".toList], false⟩ rfl rfl (by decide) (by decide)
    with ⟨st2, h1, _, _, _, h5, h6, _⟩
  exact ⟨st2, h1, h5, h6⟩

/-- C6 witness: a confirmed folder holding only a `.bin` game file (no entry
point); the batch result is just the report event. -/
theorem no_entry_point_aborts_folder_only_witness :
    runBatch true "d".toList "n".toList ⟨defaultTaxonomy, none, []⟩
      [⟨⟨"Folder".toList, [], true⟩,
        [⟨"track".toList, [".bin".toList], false⟩],
        "y".toList, 0, "out".toList⟩] =
      .ok (⟨defaultTaxonomy, none, []⟩, [Event.printNoEntry]) := by
  have h := no_entry_point_aborts_folder_only "d".toList "n".toList
    ⟨defaultTaxonomy, none, []⟩ ⟨defaultTaxonomy, none, []⟩
    ⟨defaultTaxonomy, none, []⟩
    ⟨⟨"Folder".toList, [], true⟩,
      [⟨"track".toList, [".bin".toList], false⟩],
      "y".toList, 0, "out".toList⟩ []
    ⟨[⟨"track".toList, [".bin".toList], false⟩], [], [], []⟩ []
    rfl (by decide) (by decide) rfl
  exact h.2.2.2

/-- C7 witness: the specification's own example `1,3-5` over six folders. -/
theorem parse_selection_correct_witness :
    parse_selection "1,3-5".toList
      (["a", "b", "c", "d", "e", "f"] : List String) =
      .ok ["b", "d", "e", "f"] := by
  have h := (parse_selection_correct "1,3-5".toList
    (["a", "b", "c", "d", "e", "f"] : List String)).2 (by decide)
    [SelToken.single 1, SelToken.range 3 5] (by decide)
  rw [h]
  rfl

/-- C8 witness: the specification's own example `x-2` is a fatal parse
error. -/
theorem parse_selection_malformed_fatal_witness :
    ∃ e, parse_selection "x-2".toList (["a", "b"] : List String) =
      .error e :=
  parse_selection_malformed_fatal "x-2".toList ["a", "b"] (by decide)
    ⟨"x-2".toList, by decide, by decide⟩

/-- C10 witness: a folder with a game file and a subdirectory. -/
theorem audit_folder_partitions_witness :
    ∃ st2 rep,
      audit_folder true ⟨defaultTaxonomy, none, []⟩
        [⟨"a".toList, [".iso".toList], false⟩, ⟨"Sub".toList, [], true⟩] =
        .ok (st2, rep) ∧
      rep.unknown = [] ∧
      (rep.game ++ rep.save ++ rep.ignore ++ rep.unknown).Perm
        [⟨"a".toList, [".iso".toList], false⟩, ⟨"Sub".toList, [], true⟩] ∧
      (∀ f ∈ [⟨"a".toList, [".iso".toList], false⟩,
        (⟨"Sub".toList, [], true⟩ : Item)],
        f.isDir = true → f ∈ rep.ignore) :=
  audit_folder_partitions ⟨defaultTaxonomy, none, []⟩
    [⟨"a".toList, [".iso".toList], false⟩, ⟨"Sub".toList, [], true⟩]

end Emulisocomp
